import Mathlib

/-
  Verification development for the cross-platform socket abstraction of
  pvr.octonet (src/Socket.h, namespace OCTO).

  The repository ships the class declaration in Socket.h; the inline member
  functions (the setters, among them setPort) are embedded directly from the
  header.  Member functions whose bodies are not part of the repository
  snapshot (create, close, setHostname, listen, send, receive, recvfrom,
  ReadLine, is_valid) are modelled from the specification, as indicated by
  their doc comments.  OS-level effects (the stream of bytes delivered by
  recv, the byte counts accepted by send, handle allocation, name
  resolution) are modelled as explicit event lists and oracles, so that
  every definition is executable.
-/

namespace OCTO

/-- Invalid-descriptor sentinel from Socket.h (INVALID_SOCKET is -1 on POSIX). -/
def INVALID_SOCKET : Int := -1

/-- Error sentinel from Socket.h (SOCKET_ERROR is -1). -/
def SOCKET_ERROR : Int := -1

/-- Maximum number of pending connections, Socket.h line 69. -/
def MAXCONNECTIONS : Nat := 1

/-- Maximum packet size, Socket.h line 70. -/
def MAXRECV : Nat := 1500

/-- Socket family enumeration from Socket.h. -/
inductive SocketFamily
  | af_unspec
  | af_inet
  | af_inet6
deriving DecidableEq

/-- Socket domain enumeration from Socket.h (POSIX branch). -/
inductive SocketDomain
  | pf_unix
  | pf_local
  | pf_inet
deriving DecidableEq

/-- Socket type enumeration from Socket.h. -/
inductive SocketType
  | sock_stream
  | sock_dgram
deriving DecidableEq

/-- Socket protocol enumeration from Socket.h. -/
inductive SocketProtocol
  | tcp
  | udp
deriving DecidableEq

/-- The SOCKADDR_IN structure: the fields of the stored socket address that
the embedded operations touch.  Port and address are kept as natural numbers
denoting the stored bit patterns. -/
structure SockAddrIn where
  sin_family : Nat
  sin_port : Nat
  sin_addr : Nat
deriving DecidableEq

/-- The private state of an OCTO Socket object, following the member list of
Socket.h lines 261-271.  The field lineBuffer is the internal carry-over
buffer of ReadLine, modelled from the spec (the spec states that ReadLine
buffers bytes read past the line boundary internally across calls). -/
structure SocketState where
  m_sd : Int
  m_sockaddr : SockAddrIn
  m_hostname : String
  m_port : Nat
  m_family : SocketFamily
  m_protocol : SocketProtocol
  m_type : SocketType
  m_domain : SocketDomain
  lineBuffer : List Nat
deriving DecidableEq

/-- OS htons: host-to-network-order conversion of a 16-bit value, modelled
for a little-endian host, where it swaps the two bytes.  Network byte order
is big-endian: the stored value's low-order memory byte holds the
high-order byte of the port. -/
def htons (p : Nat) : Nat := (p % 256) * 256 + (p / 256) % 256

/-- OS ntohs: network-to-host-order conversion; on a 16-bit value it is the
same byte swap as htons. -/
def ntohs (p : Nat) : Nat := htons p

/-- Socket::setPort, embedded from Socket.h line 152:
sets m_sockaddr.sin_port to htons(port).  The C++ parameter has type
unsigned short, so the argument is reduced modulo 2^16 at the call
boundary. -/
def setPort (port : Nat) (s : SocketState) : SocketState :=
  { s with m_sockaddr := { s.m_sockaddr with sin_port := htons (port % 65536) } }

/-- Socket::setFamily, embedded from Socket.h line 128. -/
def setFamily (f : SocketFamily) (s : SocketState) : SocketState :=
  { s with m_family := f }

/-- Socket::setDomain, embedded from Socket.h line 134. -/
def setDomain (d : SocketDomain) (s : SocketState) : SocketState :=
  { s with m_domain := d }

/-- Socket::setType, embedded from Socket.h line 140. -/
def setType (t : SocketType) (s : SocketState) : SocketState :=
  { s with m_type := t }

/-- Socket::setProtocol, embedded from Socket.h line 146. -/
def setProtocol (p : SocketProtocol) (s : SocketState) : SocketState :=
  { s with m_protocol := p }

/-- Modelled from the spec: a default-constructed Socket.  The descriptor
holds the invalid sentinel (no OS handle is opened by construction) and the
platform defaults IPv4 / Internet / stream / TCP are stored. -/
def initialSocket : SocketState :=
  { m_sd := INVALID_SOCKET
    m_sockaddr := { sin_family := 0, sin_port := 0, sin_addr := 0 }
    m_hostname := ""
    m_port := 0
    m_family := SocketFamily.af_inet
    m_protocol := SocketProtocol.tcp
    m_type := SocketType.sock_stream
    m_domain := SocketDomain.pf_inet
    lineBuffer := [] }

/-- Claim C7: for every port value p given in host byte order (p < 2^16),
setPort stores the port internally in network byte order: the stored
sin_port equals htons p, its low-order byte is the high-order byte of p and
vice versa (big-endian layout on the little-endian host model), and the
host-order value is recovered by ntohs — host byte order in the public
contract, network byte order internally. -/
theorem setPort_network_order (p : Nat) (s : SocketState) (hp : p < 65536) :
    (setPort p s).m_sockaddr.sin_port = htons p
    ∧ (setPort p s).m_sockaddr.sin_port % 256 = p / 256
    ∧ (setPort p s).m_sockaddr.sin_port / 256 = p % 256
    ∧ ntohs (setPort p s).m_sockaddr.sin_port = p := by
  have hmod : p % 65536 = p := Nat.mod_eq_of_lt hp
  have hport : (setPort p s).m_sockaddr.sin_port = htons p := by
    simp [setPort, hmod]
  have hlo : htons p % 256 = p / 256 := by
    unfold htons; omega
  have hhi : htons p / 256 = p % 256 := by
    unfold htons; omega
  refine ⟨hport, ?_, ?_, ?_⟩
  · rw [hport, hlo]
  · rw [hport, hhi]
  · rw [hport]
    show (htons p % 256) * 256 + (htons p / 256) % 256 = p
    rw [hlo, hhi]
    omega

/-- Witness for setPort_network_order at port 8080 on the default socket. -/
theorem setPort_network_order_witness :
    (setPort 8080 initialSocket).m_sockaddr.sin_port = htons 8080
    ∧ (setPort 8080 initialSocket).m_sockaddr.sin_port % 256 = 8080 / 256
    ∧ (setPort 8080 initialSocket).m_sockaddr.sin_port / 256 = 8080 % 256
    ∧ ntohs (setPort 8080 initialSocket).m_sockaddr.sin_port = 8080 :=
  setPort_network_order 8080 initialSocket (by decide)

/-- Modelled from the spec: Socket::is_valid (declared const in Socket.h
line 259; body not in the repository snapshot).  True iff the OS handle is
currently open, i.e. the stored descriptor differs from the invalid
sentinel. -/
def is_valid (s : SocketState) : Bool := s.m_sd != INVALID_SOCKET

/-- Modelled from the spec: Socket::close (declared in Socket.h line 170;
body not in the repository snapshot).  Releases the OS handle if open and
resets the descriptor to the invalid sentinel; closing an already-closed
socket is a no-op success.  The parameter handles models the set of OS
handles currently open in the process. -/
def close (handles : List Int) (s : SocketState) : Bool × List Int × SocketState :=
  if s.m_sd != INVALID_SOCKET then
    (true, handles.erase s.m_sd, { s with m_sd := INVALID_SOCKET })
  else
    (true, handles, s)

/-- Modelled from the spec: Socket::create (declared in Socket.h line 163;
body not in the repository snapshot).  Requests an OS handle; osResult
models the OS response (some fd on success).  On success the descriptor is
stored; on failure the socket is left in the not-open state and is_valid
is false. -/
def create (osResult : Option Int) (handles : List Int) (s : SocketState) :
    Bool × List Int × SocketState :=
  match osResult with
  | some fd => (true, fd :: handles, { s with m_sd := fd })
  | none => (false, handles, { s with m_sd := INVALID_SOCKET })

/-- Modelled from the spec: Socket::setHostname (declared in Socket.h line
154; body not in the repository snapshot).  Resolves host via the resolver
oracle; on success the resolved address is stored as the active target
address together with the host string; on resolution failure it returns
false and mutates nothing. -/
def setHostname (resolve : String → Option Nat) (host : String) (s : SocketState) :
    Bool × SocketState :=
  match resolve host with
  | none => (false, s)
  | some a =>
    (true, { s with m_hostname := host
                    m_sockaddr := { s.m_sockaddr with sin_addr := a } })

/-- Modelled from the spec: Socket::listen (declared const in Socket.h line
176; body not in the repository snapshot).  Marks a bound stream socket as
passive via the OS listen call with backlog MAXCONNECTIONS (Socket.h line
69); fails when the handle is not open or the socket is not of stream type.
The result pairs the success flag with the backlog passed to the OS listen
call (none when no OS call is made). -/
def listen (s : SocketState) : Bool × Option Nat :=
  if s.m_sd = INVALID_SOCKET then (false, none)
  else if s.m_type ≠ SocketType.sock_stream then (false, none)
  else (true, some MAXCONNECTIONS)

/-- Claim C4: close releases the OS handle if it is open (removing it from
the set of open handles) and resets the descriptor to the invalid sentinel,
always returns success, is a no-op on an already-closed socket, and is
idempotent: a second close leaves exactly the state and result of the
first. -/
theorem close_idempotent (handles : List Int) (s : SocketState) :
    (close handles s).1 = true
    ∧ (close handles s).2.2.m_sd = INVALID_SOCKET
    ∧ (s.m_sd = INVALID_SOCKET → close handles s = (true, handles, s))
    ∧ (s.m_sd ≠ INVALID_SOCKET → (close handles s).2.1 = handles.erase s.m_sd)
    ∧ close (close handles s).2.1 (close handles s).2.2 =
        (true, (close handles s).2.1, (close handles s).2.2) := by
  by_cases h : s.m_sd = INVALID_SOCKET
  · simp [close, h]
  · simp [close, h]

/-- Witness for close_idempotent on an open socket with descriptor 5: that
close releases handle 5, and on the already-closed default socket close is
a no-op success. -/
theorem close_idempotent_witness :
    (close [5] { initialSocket with m_sd := 5 }).2.1 = ([5] : List Int).erase 5
    ∧ close [] initialSocket = (true, [], initialSocket) :=
  ⟨(close_idempotent [5] { initialSocket with m_sd := 5 }).2.2.2.1 (by decide),
   (close_idempotent [] initialSocket).2.2.1 (by decide)⟩

/-- Claim C6: setHostname returns false when the host cannot be resolved
and in that case leaves the socket's entire stored state unchanged
(atomicity on error); on success it stores the resolved address as the
active target address. -/
theorem setHostname_atomic (resolve : String → Option Nat) (host : String)
    (s : SocketState) :
    (resolve host = none → setHostname resolve host s = (false, s))
    ∧ (∀ a, resolve host = some a →
        setHostname resolve host s =
          (true, { s with m_hostname := host
                          m_sockaddr := { s.m_sockaddr with sin_addr := a } })) := by
  constructor
  · intro h
    simp [setHostname, h]
  · intro a h
    simp [setHostname, h]

/-- Witness for setHostname_atomic: a resolver that knows one address,
exercised on a failing host (no mutation) and on the succeeding host
(address stored). -/
theorem setHostname_atomic_witness :
    setHostname (fun h => if h = "octonet" then some 167772161 else none)
      "nowhere" initialSocket = (false, initialSocket)
    ∧ setHostname (fun h => if h = "octonet" then some 167772161 else none)
        "octonet" initialSocket =
        (true, { initialSocket with
                   m_hostname := "octonet"
                   m_sockaddr := { initialSocket.m_sockaddr with sin_addr := 167772161 } }) :=
  ⟨(setHostname_atomic (fun h => if h = "octonet" then some 167772161 else none)
      "nowhere" initialSocket).1 (by decide),
   (setHostname_atomic (fun h => if h = "octonet" then some 167772161 else none)
      "octonet" initialSocket).2 167772161 (by decide)⟩

/-- Claim C8: listen marks a bound stream socket as passive with a fixed
backlog of exactly one pending connection, and returns failure whenever the
handle is not open or the socket is not of stream type. -/
theorem listen_contract (s : SocketState) :
    (s.m_sd ≠ INVALID_SOCKET ∧ s.m_type = SocketType.sock_stream →
      listen s = (true, some 1))
    ∧ (s.m_sd = INVALID_SOCKET ∨ s.m_type ≠ SocketType.sock_stream →
      (listen s).1 = false) := by
  constructor
  · rintro ⟨h1, h2⟩
    simp [listen, h1, h2, MAXCONNECTIONS]
  · rintro (h | h)
    · simp [listen, h]
    · by_cases h1 : s.m_sd = INVALID_SOCKET
      · simp [listen, h1]
      · simp [listen, h1, h]

/-- Witness for listen_contract on an open stream socket. -/
theorem listen_contract_witness :
    listen { initialSocket with m_sd := 4 } = (true, some 1) :=
  (listen_contract { initialSocket with m_sd := 4 }).1 (by constructor <;> decide)

/-- One event delivered by the underlying OS recv on a stream socket: a
chunk of bytes (a successful recv), a clean peer close (recv returning 0),
or an error. -/
inductive RecvEvent
  | chunk (bytes : List Nat)
  | closed
  | error
deriving DecidableEq

/-- Splits a byte list at its first newline (byte 10): some (line, rest)
when a newline is present, where line is the part before the first newline
and rest the part after it; none when the list holds no newline. -/
def splitAtNL : List Nat → Option (List Nat × List Nat)
  | [] => none
  | b :: bs =>
    if b = 10 then some ([], bs)
    else
      match splitAtNL bs with
      | none => none
      | some p => some (b :: p.1, p.2)

theorem splitAtNL_nil : splitAtNL ([] : List Nat) = none := rfl

theorem splitAtNL_cons_nl (bs : List Nat) : splitAtNL (10 :: bs) = some ([], bs) := by
  simp [splitAtNL]

theorem splitAtNL_cons {b : Nat} (bs : List Nat) (hb : ¬ b = 10) :
    splitAtNL (b :: bs) =
      match splitAtNL bs with
      | none => none
      | some p => some (b :: p.1, p.2) := by
  simp [splitAtNL, hb]

theorem splitAtNL_decomp :
    ∀ {buf l r : List Nat}, splitAtNL buf = some (l, r) → buf = l ++ 10 :: r := by
  intro buf
  induction buf with
  | nil => intro l r h; simp [splitAtNL] at h
  | cons b bs ih =>
    intro l r h
    by_cases hb : b = 10
    · subst hb
      rw [splitAtNL_cons_nl] at h
      injection h with h'
      injection h' with h1 h2
      subst h1; subst h2
      simp
    · rw [splitAtNL_cons bs hb] at h
      cases hs : splitAtNL bs with
      | none => rw [hs] at h; exact absurd h (by simp)
      | some p =>
        rw [hs] at h
        injection h with h'
        injection h' with h1 h2
        subst h1; subst h2
        have := ih (l := p.1) (r := p.2) (by rw [hs])
        simp [this]

theorem splitAtNL_no_nl :
    ∀ {buf l r : List Nat}, splitAtNL buf = some (l, r) → ¬ 10 ∈ l := by
  intro buf
  induction buf with
  | nil => intro l r h; simp [splitAtNL] at h
  | cons b bs ih =>
    intro l r h
    by_cases hb : b = 10
    · subst hb
      rw [splitAtNL_cons_nl] at h
      injection h with h'
      injection h' with h1 h2
      subst h1
      simp
    · rw [splitAtNL_cons bs hb] at h
      cases hs : splitAtNL bs with
      | none => rw [hs] at h; exact absurd h (by simp)
      | some p =>
        rw [hs] at h
        injection h with h'
        injection h' with h1 h2
        subst h1
        have hp := ih (l := p.1) (r := p.2) (by rw [hs])
        intro hmem
        rcases List.mem_cons.mp hmem with hc | hc
        · exact hb hc.symm
        · exact hp hc

theorem splitAtNL_none_no_nl :
    ∀ {buf : List Nat}, splitAtNL buf = none → ¬ 10 ∈ buf := by
  intro buf
  induction buf with
  | nil => intro h; simp
  | cons b bs ih =>
    intro h
    by_cases hb : b = 10
    · subst hb
      rw [splitAtNL_cons_nl] at h
      exact absurd h (by simp)
    · rw [splitAtNL_cons bs hb] at h
      cases hs : splitAtNL bs with
      | none =>
        intro hmem
        rcases List.mem_cons.mp hmem with hc | hc
        · exact hb hc.symm
        · exact ih hs hc
      | some p => rw [hs] at h; exact absurd h (by simp)

theorem splitAtNL_append_some {buf l r : List Nat} (x : List Nat)
    (h : splitAtNL buf = some (l, r)) : splitAtNL (buf ++ x) = some (l, r ++ x) := by
  induction buf generalizing l r with
  | nil => simp [splitAtNL] at h
  | cons b bs ih =>
    by_cases hb : b = 10
    · subst hb
      rw [splitAtNL_cons_nl] at h
      injection h with h'
      injection h' with h1 h2
      subst h1; subst h2
      rw [List.cons_append, splitAtNL_cons_nl]
    · rw [splitAtNL_cons bs hb] at h
      cases hs : splitAtNL bs with
      | none => rw [hs] at h; exact absurd h (by simp)
      | some p =>
        rw [hs] at h
        injection h with h'
        injection h' with h1 h2
        subst h1; subst h2
        rw [List.cons_append, splitAtNL_cons (bs ++ x) hb,
          ih (l := p.1) (r := p.2) (by rw [hs])]

theorem splitAtNL_append_none {buf : List Nat} (x : List Nat)
    (h : splitAtNL buf = none) :
    splitAtNL (buf ++ x) = (splitAtNL x).map (fun p => (buf ++ p.1, p.2)) := by
  induction buf with
  | nil =>
    simp only [List.nil_append]
    cases splitAtNL x <;> simp
  | cons b bs ih =>
    by_cases hb : b = 10
    · subst hb
      rw [splitAtNL_cons_nl] at h
      exact absurd h (by simp)
    · rw [splitAtNL_cons bs hb] at h
      cases hs : splitAtNL bs with
      | none =>
        rw [List.cons_append, splitAtNL_cons (bs ++ x) hb, ih hs]
        cases splitAtNL x <;> simp
      | some p => rw [hs] at h; exact absurd h (by simp)

theorem splitAtNL_length {buf l r : List Nat} (h : splitAtNL buf = some (l, r)) :
    r.length < buf.length := by
  have := splitAtNL_decomp h
  subst this
  simp
  omega

/-- Reference line decomposition of a byte sequence: the list of
newline-terminated lines (terminators stripped, in order) followed by the
trailing partial line after the last newline. -/
def splitLines (data : List Nat) : List (List Nat) × List Nat :=
  match h : splitAtNL data with
  | none => ([], data)
  | some p =>
    let q := splitLines p.2
    (p.1 :: q.1, q.2)
termination_by data.length
decreasing_by exact splitAtNL_length h

theorem splitLines_of_none {data : List Nat} (h : splitAtNL data = none) :
    splitLines data = ([], data) := by
  rw [splitLines, h]

theorem splitLines_of_some {data l r : List Nat} (h : splitAtNL data = some (l, r)) :
    splitLines data = (l :: (splitLines r).1, (splitLines r).2) := by
  rw [splitLines, h]

/-- Reassembles a line decomposition: every line followed by the newline
terminator, then the trailing partial line. -/
def linesJoin (ls : List (List Nat)) (p : List Nat) : List Nat :=
  (ls.map (fun l => l ++ [10])).flatten ++ p

theorem splitLines_join :
    ∀ n (data : List Nat), data.length ≤ n →
      linesJoin (splitLines data).1 (splitLines data).2 = data := by
  intro n
  induction n with
  | zero =>
    intro data hd
    have : data = [] := List.length_eq_zero.mp (Nat.le_zero.mp hd)
    subst this
    simp [splitLines_of_none splitAtNL_nil, linesJoin]
  | succ n ih =>
    intro data hd
    cases hs : splitAtNL data with
    | none => simp [splitLines_of_none hs, linesJoin]
    | some p =>
      rw [splitLines_of_some (l := p.1) (r := p.2) (by rw [hs])]
      have hlen : p.2.length < data.length := splitAtNL_length (l := p.1) (by rw [hs])
      have hrec := ih p.2 (by omega)
      have hdec := splitAtNL_decomp (l := p.1) (r := p.2) (by rw [hs])
      simp only [linesJoin] at hrec ⊢
      simp [hrec, hdec]

theorem splitLines_no_nl :
    ∀ n (data : List Nat), data.length ≤ n →
      (∀ l ∈ (splitLines data).1, ¬ 10 ∈ l) ∧ ¬ 10 ∈ (splitLines data).2 := by
  intro n
  induction n with
  | zero =>
    intro data hd
    have : data = [] := List.length_eq_zero.mp (Nat.le_zero.mp hd)
    subst this
    simp [splitLines_of_none splitAtNL_nil]
  | succ n ih =>
    intro data hd
    cases hs : splitAtNL data with
    | none =>
      simp [splitLines_of_none hs]
      exact splitAtNL_none_no_nl hs
    | some p =>
      rw [splitLines_of_some (l := p.1) (r := p.2) (by rw [hs])]
      have hlen : p.2.length < data.length := splitAtNL_length (l := p.1) (by rw [hs])
      have hrec := ih p.2 (by omega)
      have hline := splitAtNL_no_nl (l := p.1) (r := p.2) (by rw [hs])
      constructor
      · intro l hl
        simp at hl
        cases hl with
        | inl hl => rw [hl]; exact hline
        | inr hl => exact hrec.1 l hl
      · exact hrec.2

/-- Modelled from the spec: the internal loop of Socket::ReadLine (declared
in Socket.h line 257; body not in the repository snapshot).  Starting from
the carried-over buffer buf, if the buffer already holds a newline the line
before it is returned (terminator stripped) and the bytes after it stay
buffered, consuming no further input; otherwise one underlying receive is
performed per step: a chunk is appended to the buffer, while a close or an
error makes the call fail, returning none as line and preserving the
buffered partial line.  The overall result is none when the event list is
exhausted with no complete line (the call would block); otherwise
some (line?, new buffer, remaining events). -/
def readLineLoop : List Nat → List RecvEvent →
    Option (Option (List Nat) × List Nat × List RecvEvent)
  | buf, [] =>
    match splitAtNL buf with
    | some p => some (some p.1, p.2, [])
    | none => none
  | buf, ev :: rest =>
    match splitAtNL buf with
    | some p => some (some p.1, p.2, ev :: rest)
    | none =>
      match ev with
      | RecvEvent.closed => some (none, buf, rest)
      | RecvEvent.error => some (none, buf, rest)
      | RecvEvent.chunk bs => readLineLoop (buf ++ bs) rest

/-- Modelled from the spec: Socket::ReadLine itself, acting on the socket
state: it runs the loop on the carried-over buffer, stores the new buffer
back into the state, and returns true iff a complete line was extracted.
When the loop would block (event list exhausted) the state is returned
unchanged with result false. -/
def ReadLine (s : SocketState) (evs : List RecvEvent) :
    SocketState × Bool × Option (List Nat) × List RecvEvent :=
  match readLineLoop s.lineBuffer evs with
  | none => (s, false, none, evs)
  | some r => ({ s with lineBuffer := r.2.1 }, r.1.isSome, r.1, r.2.2)

/-- Size of one receive event, counting one unit for the event itself plus
its payload bytes. -/
def evWeight : RecvEvent → Nat
  | RecvEvent.chunk bs => bs.length + 1
  | RecvEvent.closed => 1
  | RecvEvent.error => 1

/-- Total size of a receive event list. -/
def evsWeight (evs : List RecvEvent) : Nat := (evs.map evWeight).sum

theorem evsWeight_cons (e : RecvEvent) (evs : List RecvEvent) :
    evsWeight (e :: evs) = evWeight e + evsWeight evs := by
  simp [evsWeight]

theorem readLineLoop_measure :
    ∀ (evs : List RecvEvent) (buf l b : List Nat) (e : List RecvEvent),
      readLineLoop buf evs = some (some l, b, e) →
      b.length + evsWeight e < buf.length + evsWeight evs := by
  intro evs
  induction evs with
  | nil =>
    intro buf l b e h
    simp only [readLineLoop] at h
    cases hs : splitAtNL buf with
    | none => rw [hs] at h; exact absurd h (by simp)
    | some p =>
      rw [hs] at h
      simp only at h
      injection h with h'
      injection h' with h1 h'
      injection h' with h2 h3
      subst h2; subst h3
      have := splitAtNL_length (l := p.1) (by rw [hs])
      omega
  | cons ev rest ih =>
    intro buf l b e h
    simp only [readLineLoop] at h
    cases hs : splitAtNL buf with
    | some p =>
      rw [hs] at h
      simp only at h
      injection h with h'
      injection h' with h1 h'
      injection h' with h2 h3
      subst h2; subst h3
      have := splitAtNL_length (l := p.1) (by rw [hs])
      omega
    | none =>
      rw [hs] at h
      cases ev with
      | closed =>
        simp only at h
        injection h with h'
        injection h' with h1 h'
        exact absurd h1 (by simp)
      | error =>
        simp only at h
        injection h with h'
        injection h' with h1 h'
        exact absurd h1 (by simp)
      | chunk bs =>
        simp only at h
        have := ih (buf ++ bs) l b e h
        rw [evsWeight_cons]
        simp [evWeight] at this ⊢
        omega

/-- Repeated ReadLine calls: starting from carry-over buffer buf, extract
lines until a call fails (close or error before a complete line); the
result collects the extracted lines in order together with the partial
line still buffered at the failing call.  none when the event list is
exhausted before a failing call (the next call would block). -/
def readAllLines (buf : List Nat) (evs : List RecvEvent) :
    Option (List (List Nat) × List Nat) :=
  match hm : readLineLoop buf evs with
  | none => none
  | some r =>
    match hr : r.1 with
    | none => some ([], r.2.1)
    | some l =>
      match readAllLines r.2.1 r.2.2 with
      | none => none
      | some q => some (l :: q.1, q.2)
termination_by buf.length + evsWeight evs
decreasing_by
  exact readLineLoop_measure evs buf l r.2.1 r.2.2 (by rw [hm, ← hr])

theorem readLineLoop_split {buf : List Nat} {p : List Nat × List Nat}
    (h : splitAtNL buf = some p) (evs : List RecvEvent) :
    readLineLoop buf evs = some (some p.1, p.2, evs) := by
  cases evs <;> simp only [readLineLoop] <;> rw [h]

theorem readLineLoop_chunk {buf : List Nat} (h : splitAtNL buf = none)
    (c : List Nat) (rest : List RecvEvent) :
    readLineLoop buf (RecvEvent.chunk c :: rest) = readLineLoop (buf ++ c) rest := by
  simp only [readLineLoop]
  rw [h]

theorem readLineLoop_closed {buf : List Nat} (h : splitAtNL buf = none)
    (rest : List RecvEvent) :
    readLineLoop buf (RecvEvent.closed :: rest) = some (none, buf, rest) := by
  simp only [readLineLoop]
  rw [h]

theorem readLineLoop_err {buf : List Nat} (h : splitAtNL buf = none)
    (rest : List RecvEvent) :
    readLineLoop buf (RecvEvent.error :: rest) = some (none, buf, rest) := by
  simp only [readLineLoop]
  rw [h]

theorem readAllLines_blocked {buf : List Nat} {evs : List RecvEvent}
    (h : readLineLoop buf evs = none) : readAllLines buf evs = none := by
  unfold readAllLines
  split
  · rfl
  · next r hm => rw [h] at hm; exact absurd hm (by simp)

theorem readAllLines_stop {buf b : List Nat} {evs e : List RecvEvent}
    (h : readLineLoop buf evs = some (none, b, e)) :
    readAllLines buf evs = some ([], b) := by
  unfold readAllLines
  split
  · next hm => rw [h] at hm; exact absurd hm (by simp)
  · next r hm =>
      rw [h] at hm
      injection hm with hm'
      subst hm'
      rfl

theorem readAllLines_line {buf l b : List Nat} {evs e : List RecvEvent}
    (h : readLineLoop buf evs = some (some l, b, e)) :
    readAllLines buf evs =
      match readAllLines b e with
      | none => none
      | some q => some (l :: q.1, q.2) := by
  conv_lhs => unfold readAllLines
  split
  · next hm => rw [h] at hm; exact absurd hm (by simp)
  · next r hm =>
      rw [h] at hm
      injection hm with hm'
      subst hm'
      rfl

theorem readAllLines_chunk_step {buf : List Nat} (h : splitAtNL buf = none)
    (c : List Nat) (rest : List RecvEvent) :
    readAllLines buf (RecvEvent.chunk c :: rest) = readAllLines (buf ++ c) rest := by
  have hred := readLineLoop_chunk h c rest
  cases hv : readLineLoop (buf ++ c) rest with
  | none => rw [readAllLines_blocked (hred.trans hv), readAllLines_blocked hv]
  | some r =>
    obtain ⟨r1, b, e⟩ := r
    cases r1 with
    | none => rw [readAllLines_stop (hred.trans hv), readAllLines_stop hv]
    | some l => rw [readAllLines_line (hred.trans hv), readAllLines_line hv]

theorem evsWeight_append (a b : List RecvEvent) :
    evsWeight (a ++ b) = evsWeight a + evsWeight b := by
  simp [evsWeight]

theorem readAllLines_chunks :
    ∀ (n : Nat) (buf : List Nat) (css : List (List Nat)),
      buf.length + evsWeight (css.map RecvEvent.chunk ++ [RecvEvent.closed]) ≤ n →
      readAllLines buf (css.map RecvEvent.chunk ++ [RecvEvent.closed]) =
        some (splitLines (buf ++ css.flatten)) := by
  intro n
  induction n with
  | zero =>
    intro buf css h
    exfalso
    rw [evsWeight_append] at h
    simp [evsWeight, evWeight] at h
  | succ n ih =>
    intro buf css hle
    cases hs : splitAtNL buf with
    | some p =>
      rw [readAllLines_line (readLineLoop_split hs _)]
      have hlen : p.2.length < buf.length := splitAtNL_length (l := p.1) (by rw [hs])
      rw [ih p.2 css (by omega)]
      have happ : splitAtNL (buf ++ css.flatten) = some (p.1, p.2 ++ css.flatten) :=
        splitAtNL_append_some (l := p.1) (r := p.2) css.flatten (by rw [hs])
      rw [splitLines_of_some happ]
    | none =>
      cases css with
      | nil =>
        simp only [List.map_nil, List.nil_append]
        rw [readAllLines_stop (readLineLoop_closed hs [])]
        have hb : buf ++ ([] : List (List Nat)).flatten = buf := by simp
        rw [hb, splitLines_of_none hs]
      | cons c cs =>
        have hsh : ((c :: cs).map RecvEvent.chunk ++ [RecvEvent.closed]) =
            RecvEvent.chunk c :: (cs.map RecvEvent.chunk ++ [RecvEvent.closed]) := by
          simp
        rw [hsh, readAllLines_chunk_step hs c _]
        rw [hsh, evsWeight_cons] at hle
        simp only [evWeight] at hle
        rw [ih (buf ++ c) cs (by simp only [List.length_append]; omega)]
        have hassoc : (buf ++ c) ++ cs.flatten = buf ++ (c :: cs).flatten := by
          simp [List.append_assoc]
        rw [hassoc]

/-- Claim C1: for every fragmentation of the delivered byte stream into
underlying receive chunks followed by a stream close, repeated ReadLine
calls (readAllLines, driven by the per-call loop readLineLoop) return
exactly the newline-terminated lines of the flattened stream in order with
the terminator stripped (splitLines), never dropping or duplicating a byte:
joining the returned lines with newline terminators and appending the
preserved partial buffer reconstructs the byte stream exactly, whatever the
chunk boundaries; no returned line contains a newline; and a ReadLine call
that hits close or error before a complete line is available returns no
line while preserving the partial line already buffered. -/
theorem ReadLine_stream_exact (css : List (List Nat)) :
    readAllLines [] (css.map RecvEvent.chunk ++ [RecvEvent.closed]) =
      some (splitLines css.flatten)
    ∧ linesJoin (splitLines css.flatten).1 (splitLines css.flatten).2 = css.flatten
    ∧ (∀ l ∈ (splitLines css.flatten).1, ¬ 10 ∈ l)
    ∧ (∀ (buf : List Nat) (evs : List RecvEvent), splitAtNL buf = none →
        readLineLoop buf (RecvEvent.closed :: evs) = some (none, buf, evs)
        ∧ readLineLoop buf (RecvEvent.error :: evs) = some (none, buf, evs)) := by
  refine ⟨?_, ?_, ?_, ?_⟩
  · have := readAllLines_chunks
      (evsWeight (css.map RecvEvent.chunk ++ [RecvEvent.closed])) [] css (by simp)
    simpa using this
  · exact splitLines_join css.flatten.length css.flatten le_rfl
  · exact fun l hl => (splitLines_no_nl css.flatten.length css.flatten le_rfl).1 l hl
  · intro buf evs h
    exact ⟨readLineLoop_closed h evs, readLineLoop_err h evs⟩

/-- Witness for ReadLine_stream_exact: two chunks carrying one and a half
lines are reassembled into the lines 'HI' and 'YO' with empty leftover,
and a failing ReadLine on a partial buffer preserves it. -/
theorem ReadLine_stream_exact_witness :
    readAllLines [] ([[72, 73, 10, 89], [79, 10]].map RecvEvent.chunk ++ [RecvEvent.closed]) =
      some (splitLines ([[72, 73, 10, 89], [79, 10]] : List (List Nat)).flatten)
    ∧ readLineLoop [72, 73] (RecvEvent.closed :: []) = some (none, [72, 73], []) := by
  refine ⟨(ReadLine_stream_exact [[72, 73, 10, 89], [79, 10]]).1, ?_⟩
  exact ((ReadLine_stream_exact [[72, 73, 10, 89], [79, 10]]).2.2.2 [72, 73] []
    (by decide)).1

/-- Modelled from the spec: the accumulation loop of Socket::receive
(declared in Socket.h line 239; body not in the repository snapshot).
Starting from the bytes acc already accumulated, the loop returns as soon
as at least minpacketsize bytes are accumulated or the buffer of size
buffersize is full, reporting the byte count; otherwise one underlying
receive is retried per step: a delivered chunk is appended (a chunk larger
than the remaining buffer space is taken only up to buffersize, the excess
staying at the head of the stream), a clean peer close stops the call with
the accumulated count (0 when nothing was received), and an error yields
the negative sentinel.  none models a call that would block forever
(event list exhausted below the minimum). -/
def receiveLoop (buffersize minpacketsize : Nat) :
    List Nat → List RecvEvent → Option (Int × List Nat × List RecvEvent)
  | acc, [] =>
    if minpacketsize ≤ acc.length ∨ buffersize ≤ acc.length then
      some ((acc.length : Int), acc, [])
    else none
  | acc, ev :: rest =>
    if minpacketsize ≤ acc.length ∨ buffersize ≤ acc.length then
      some ((acc.length : Int), acc, ev :: rest)
    else
      match ev with
      | RecvEvent.closed => some ((acc.length : Int), acc, rest)
      | RecvEvent.error => some (SOCKET_ERROR, acc, rest)
      | RecvEvent.chunk bs =>
        if bs.length ≤ buffersize - acc.length then
          receiveLoop buffersize minpacketsize (acc ++ bs) rest
        else
          some ((buffersize : Int), acc ++ bs.take (buffersize - acc.length),
            RecvEvent.chunk (bs.drop (buffersize - acc.length)) :: rest)

/-- Modelled from the spec: Socket::receive(buffer, buffersize,
minpacketsize): the accumulation loop started with an empty buffer. -/
def receive (buffersize minpacketsize : Nat) (evs : List RecvEvent) :
    Option (Int × List Nat × List RecvEvent) :=
  receiveLoop buffersize minpacketsize [] evs

theorem receiveLoop_done {buffersize minpacketsize : Nat} {acc : List Nat}
    (evs : List RecvEvent)
    (h : minpacketsize ≤ acc.length ∨ buffersize ≤ acc.length) :
    receiveLoop buffersize minpacketsize acc evs =
      some ((acc.length : Int), acc, evs) := by
  cases evs <;> simp only [receiveLoop] <;> rw [if_pos h]

theorem receiveLoop_chunk {buffersize minpacketsize : Nat} {acc bs : List Nat}
    (rest : List RecvEvent)
    (h1 : acc.length < minpacketsize) (h2 : acc.length < buffersize)
    (h3 : bs.length ≤ buffersize - acc.length) :
    receiveLoop buffersize minpacketsize acc (RecvEvent.chunk bs :: rest) =
      receiveLoop buffersize minpacketsize (acc ++ bs) rest := by
  simp only [receiveLoop]
  rw [if_neg (by omega), if_pos h3]

/-- Claim C2: receive accumulates underlying stream fragments until at
least minpacketsize bytes have arrived (retrying short reads internally):
for all fragment pairs a, b with 0 < n = a.length + b.length ≤ buffersize,
a single receive call with minpacketsize = n on a stream delivering a then
b returns exactly n bytes assembled in order; a clean peer close before any
byte yields 0 and an error yields the negative sentinel. -/
theorem receive_min_bytes (a b : List Nat) (buffersize : Nat)
    (ha : a ≠ []) (hb : b ≠ [])
    (hle : a.length + b.length ≤ buffersize) :
    receive buffersize (a.length + b.length)
        [RecvEvent.chunk a, RecvEvent.chunk b] =
      some (((a ++ b).length : Int), a ++ b, [])
    ∧ receive buffersize (a.length + b.length) [RecvEvent.closed] =
      some (0, [], [])
    ∧ receive buffersize (a.length + b.length) [RecvEvent.error] =
      some (SOCKET_ERROR, [], []) := by
  have hal : 0 < a.length := List.length_pos.mpr ha
  have hbl : 0 < b.length := List.length_pos.mpr hb
  refine ⟨?_, ?_, ?_⟩
  · rw [receive]
    rw [@receiveLoop_chunk buffersize (a.length + b.length) [] a [RecvEvent.chunk b]
      (by simp; omega) (by simp; omega) (by simp; omega)]
    rw [@receiveLoop_chunk buffersize (a.length + b.length) ([] ++ a) b []
      (by simp; omega) (by simp; omega) (by simp; omega)]
    rw [receiveLoop_done [] (by simp)]
    simp
  · rw [receive]
    simp only [receiveLoop]
    rw [if_neg (by simp only [List.length_nil]; omega)]
    simp
  · rw [receive]
    simp only [receiveLoop]
    rw [if_neg (by simp only [List.length_nil]; omega)]

/-- Witness for receive_min_bytes: 5 bytes sent as fragments of 2 and 3
are assembled by one call with minpacketsize 5. -/
theorem receive_min_bytes_witness :
    receive 8 (([1, 2] : List Nat).length + ([3, 4, 5] : List Nat).length)
        [RecvEvent.chunk [1, 2], RecvEvent.chunk [3, 4, 5]] =
      some ((([1, 2] ++ [3, 4, 5] : List Nat).length : Int), [1, 2] ++ [3, 4, 5], []) :=
  (receive_min_bytes [1, 2] [3, 4, 5] 8 (by decide) (by decide) (by decide)).1

/-- One event of the underlying OS send on a stream socket: the OS accepted
k bytes of the requested range (a short write when k is less than what was
asked), or an unrecoverable error. -/
inductive SendEvent
  | sent (k : Nat)
  | err
deriving DecidableEq

/-- Modelled from the spec: the retry loop of Socket::send (declared in
Socket.h lines 192-201; body not in the repository snapshot).  The loop
retries the underlying OS send until all size bytes are transmitted,
accumulating the count of bytes sent so far; the OS never accepts more
than the remaining range (the min).  On an unrecoverable error the
negative sentinel is returned together with the count actually
transmitted before the error — the error is reported, not a truncated
success.  none models a call that would block (event list exhausted with
bytes still unsent). -/
def sendLoop (size : Nat) : Nat → List SendEvent → Option (Int × Nat)
  | sentsofar, [] =>
    if size ≤ sentsofar then some ((sentsofar : Int), sentsofar) else none
  | sentsofar, ev :: rest =>
    if size ≤ sentsofar then some ((sentsofar : Int), sentsofar)
    else
      match ev with
      | SendEvent.err => some (SOCKET_ERROR, sentsofar)
      | SendEvent.sent k => sendLoop size (sentsofar + min k (size - sentsofar)) rest

/-- Modelled from the spec: Socket::send(data, size): the retry loop
started with zero bytes sent. -/
def send (size : Nat) (evs : List SendEvent) : Option (Int × Nat) :=
  sendLoop size 0 evs

theorem sendLoop_total :
    ∀ (ks : List Nat) (size s : Nat), s ≤ size → size ≤ s + ks.sum →
      sendLoop size s (ks.map SendEvent.sent) = some ((size : Int), size) := by
  intro ks
  induction ks with
  | nil =>
    intro size s h1 h2
    have : s = size := by simp at h2; omega
    subst this
    simp [sendLoop]
  | cons k rest ih =>
    intro size s h1 h2
    by_cases hdone : size ≤ s
    · have : s = size := by omega
      subst this
      simp [sendLoop]
    · simp only [List.map_cons, sendLoop]
      rw [if_neg hdone]
      apply ih
      · omega
      · simp at h2
        omega

/-- Claim C3: send internally retries partial OS-level transmissions until
all size bytes are sent — any fragmentation ks of the transfer whose total
covers size ends with all size bytes reported sent — and a short partial
transmission followed by an unrecoverable error is reported as the
negative error sentinel, never as a silently truncated success. -/
theorem send_retries_until_complete (size k : Nat) (ks : List Nat)
    (hsize : 0 < size) (hsum : size ≤ ks.sum) (hk0 : 0 < k) (hk : k < size) :
    send size (ks.map SendEvent.sent) = some ((size : Int), size)
    ∧ send size [SendEvent.sent k, SendEvent.err] = some (SOCKET_ERROR, k) := by
  constructor
  · exact sendLoop_total ks size 0 (by omega) (by omega)
  · rw [send]
    simp only [sendLoop]
    rw [if_neg (by omega)]
    have hmin : 0 + min k (size - 0) = k := by omega
    rw [hmin]
    rw [if_neg (by omega)]

/-- Witness for send_retries_until_complete: a 10-byte transfer fragmented
into 4+3+3 completes with 10 bytes reported, and a short write of 4
followed by an error reports the error sentinel. -/
theorem send_retries_until_complete_witness :
    send 10 ([4, 3, 3].map SendEvent.sent) = some ((10 : Int), 10)
    ∧ send 10 [SendEvent.sent 4, SendEvent.err] = some (SOCKET_ERROR, 4) :=
  send_retries_until_complete 10 4 [4, 3, 3] (by decide) (by decide) (by decide)
    (by decide)

/-- Modelled from the spec: Socket::recvfrom (declared const in Socket.h
lines 250-253; body not in the repository snapshot).  A single-datagram
receive: it does not loop — it returns whatever the one underlying receive
yields: the datagram truncated to the buffer size, 0 on close, the
negative sentinel on error; none models a blocking call with no datagram
available. -/
def recvfrom (buffersize : Nat) (evs : List RecvEvent) :
    Option (Int × List Nat × List RecvEvent) :=
  match evs with
  | [] => none
  | RecvEvent.closed :: rest => some (0, [], rest)
  | RecvEvent.error :: rest => some (SOCKET_ERROR, [], rest)
  | RecvEvent.chunk bs :: rest =>
    some (((min bs.length buffersize : Nat) : Int), bs.take buffersize, rest)

/-- Socket::receive(char*, buffersize, minpacketsize) as a member function
acting on the socket state: declared const in Socket.h line 239, so its
embedding pairs the unchanged receiver with the I/O result of the
spec-modelled accumulation loop. -/
def receiveC (s : SocketState) (buffersize minpacketsize : Nat)
    (evs : List RecvEvent) :
    SocketState × Option (Int × List Nat × List RecvEvent) :=
  (s, receive buffersize minpacketsize evs)

/-- Socket::receive(std::string&, minpacketsize) (and, with minpacketsize
1, Socket::receive(std::string&)) as a member function acting on the
socket state: declared const in Socket.h lines 221-229.  The dynamically
sized output buffer is modelled by running the loop until the minimum is
reached. -/
def receiveStringC (s : SocketState) (minpacketsize : Nat)
    (evs : List RecvEvent) :
    SocketState × Option (Int × List Nat × List RecvEvent) :=
  (s, receiveLoop minpacketsize minpacketsize [] evs)

/-- Socket::recvfrom as a member function acting on the socket state:
declared const in Socket.h lines 250-253. -/
def recvfromC (s : SocketState) (buffersize : Nat) (evs : List RecvEvent) :
    SocketState × Option (Int × List Nat × List RecvEvent) :=
  (s, recvfrom buffersize evs)

/-- Claim C10: every receive overload and recvfrom leave all stored Socket
attributes unchanged — they are const member functions, embedded as
returning the receiver state as-is — whereas ReadLine (not const, Socket.h
line 257) is the sole read operation that may mutate instance state, and
it mutates nothing but its internal carry-over line buffer: descriptor,
address, hostname, port, family, protocol, type and domain are all
preserved. -/
theorem receive_const_frame (s : SocketState) (buffersize minpacketsize : Nat)
    (evs : List RecvEvent) :
    (receiveC s buffersize minpacketsize evs).1 = s
    ∧ (receiveStringC s minpacketsize evs).1 = s
    ∧ (recvfromC s buffersize evs).1 = s
    ∧ (ReadLine s evs).1.m_sd = s.m_sd
    ∧ (ReadLine s evs).1.m_sockaddr = s.m_sockaddr
    ∧ (ReadLine s evs).1.m_hostname = s.m_hostname
    ∧ (ReadLine s evs).1.m_port = s.m_port
    ∧ (ReadLine s evs).1.m_family = s.m_family
    ∧ (ReadLine s evs).1.m_protocol = s.m_protocol
    ∧ (ReadLine s evs).1.m_type = s.m_type
    ∧ (ReadLine s evs).1.m_domain = s.m_domain := by
  refine ⟨rfl, rfl, rfl, ?_⟩
  rw [ReadLine]
  cases readLineLoop s.lineBuffer evs with
  | none => simp
  | some r => simp

/-- One operation of a Socket's life, with the OS responses it depends on
recorded in the event: a create that the OS grants with descriptor fd, a
create the OS refuses, a close, the setters, a setHostname with the
resolver's answer, and a ReadLine with the stream events it consumes. -/
inductive SockOp
  | opCreate (fd : Int)
  | opCreateFail
  | opClose
  | opSetPort (p : Nat)
  | opSetHostname (addr : Option Nat) (host : String)
  | opSetFamily (f : SocketFamily)
  | opSetDomain (d : SocketDomain)
  | opSetType (t : SocketType)
  | opSetProtocol (pr : SocketProtocol)
  | opReadLine (evs : List RecvEvent)

/-- The effect of one operation on the socket state, built from the
embedded operations above (the OS-handle set and I/O results are
projected away: only the instance state evolution matters here). -/
def stepOp (s : SocketState) : SockOp → SocketState
  | SockOp.opCreate fd => (create (some fd) [] s).2.2
  | SockOp.opCreateFail => (create none [] s).2.2
  | SockOp.opClose => (close [] s).2.2
  | SockOp.opSetPort p => setPort p s
  | SockOp.opSetHostname addr host => (setHostname (fun _ => addr) host s).2
  | SockOp.opSetFamily f => setFamily f s
  | SockOp.opSetDomain d => setDomain d s
  | SockOp.opSetType t => setType t s
  | SockOp.opSetProtocol pr => setProtocol pr s
  | SockOp.opReadLine evs => (ReadLine s evs).1

/-- Runs a trace of operations from a starting state. -/
def runOps (s : SocketState) (ops : List SockOp) : SocketState :=
  ops.foldl stepOp s

/-- Reference predicate taken from the words of the claim: after the
trace, the most recent create succeeded and close has not been called
since (create granted by the OS flips it to true, a failed create or a
close flips it to false, every other operation leaves it unchanged;
initially false). -/
def specValid (b : Bool) : List SockOp → Bool
  | [] => b
  | SockOp.opCreate _ :: rest => specValid true rest
  | SockOp.opCreateFail :: rest => specValid false rest
  | SockOp.opClose :: rest => specValid false rest
  | SockOp.opSetPort _ :: rest => specValid b rest
  | SockOp.opSetHostname _ _ :: rest => specValid b rest
  | SockOp.opSetFamily _ :: rest => specValid b rest
  | SockOp.opSetDomain _ :: rest => specValid b rest
  | SockOp.opSetType _ :: rest => specValid b rest
  | SockOp.opSetProtocol _ :: rest => specValid b rest
  | SockOp.opReadLine _ :: rest => specValid b rest

theorem is_valid_run :
    ∀ (ops : List SockOp) (s : SocketState),
      (∀ fd, SockOp.opCreate fd ∈ ops → fd ≠ INVALID_SOCKET) →
      is_valid (runOps s ops) = specValid (is_valid s) ops := by
  intro ops
  induction ops with
  | nil => intro s hfd; rfl
  | cons op rest ih =>
    intro s hfd
    have hrest : ∀ fd, SockOp.opCreate fd ∈ rest → fd ≠ INVALID_SOCKET :=
      fun fd hm => hfd fd (List.mem_cons_of_mem op hm)
    cases op with
    | opCreate fd =>
      have hne : fd ≠ INVALID_SOCKET := hfd fd (List.mem_cons_self _ _)
      have hstep : is_valid (stepOp s (SockOp.opCreate fd)) = true := by
        simp [stepOp, create, is_valid, hne]
      calc is_valid (runOps s (SockOp.opCreate fd :: rest))
          = is_valid (runOps (stepOp s (SockOp.opCreate fd)) rest) := rfl
        _ = specValid (is_valid (stepOp s (SockOp.opCreate fd))) rest :=
            ih (stepOp s (SockOp.opCreate fd)) hrest
        _ = specValid true rest := by rw [hstep]
        _ = specValid (is_valid s) (SockOp.opCreate fd :: rest) := rfl
    | opCreateFail =>
      have hstep : is_valid (stepOp s SockOp.opCreateFail) = false := by
        simp [stepOp, create, is_valid]
      calc is_valid (runOps s (SockOp.opCreateFail :: rest))
          = specValid (is_valid (stepOp s SockOp.opCreateFail)) rest :=
            ih (stepOp s SockOp.opCreateFail) hrest
        _ = specValid false rest := by rw [hstep]
    | opClose =>
      have hstep : is_valid (stepOp s SockOp.opClose) = false := by
        by_cases h : s.m_sd = INVALID_SOCKET <;> simp [stepOp, close, is_valid, h]
      calc is_valid (runOps s (SockOp.opClose :: rest))
          = specValid (is_valid (stepOp s SockOp.opClose)) rest :=
            ih (stepOp s SockOp.opClose) hrest
        _ = specValid false rest := by rw [hstep]
    | opSetPort p =>
      have hstep : is_valid (stepOp s (SockOp.opSetPort p)) = is_valid s := by
        simp [stepOp, setPort, is_valid]
      calc is_valid (runOps s (SockOp.opSetPort p :: rest))
          = specValid (is_valid (stepOp s (SockOp.opSetPort p))) rest :=
            ih _ hrest
        _ = specValid (is_valid s) rest := by rw [hstep]
    | opSetHostname addr host =>
      have hstep : is_valid (stepOp s (SockOp.opSetHostname addr host)) = is_valid s := by
        cases addr <;> simp [stepOp, setHostname, is_valid]
      calc is_valid (runOps s (SockOp.opSetHostname addr host :: rest))
          = specValid (is_valid (stepOp s (SockOp.opSetHostname addr host))) rest :=
            ih _ hrest
        _ = specValid (is_valid s) rest := by rw [hstep]
    | opSetFamily f =>
      have hstep : is_valid (stepOp s (SockOp.opSetFamily f)) = is_valid s := by
        simp [stepOp, setFamily, is_valid]
      calc is_valid (runOps s (SockOp.opSetFamily f :: rest))
          = specValid (is_valid (stepOp s (SockOp.opSetFamily f))) rest := ih _ hrest
        _ = specValid (is_valid s) rest := by rw [hstep]
    | opSetDomain d =>
      have hstep : is_valid (stepOp s (SockOp.opSetDomain d)) = is_valid s := by
        simp [stepOp, setDomain, is_valid]
      calc is_valid (runOps s (SockOp.opSetDomain d :: rest))
          = specValid (is_valid (stepOp s (SockOp.opSetDomain d))) rest := ih _ hrest
        _ = specValid (is_valid s) rest := by rw [hstep]
    | opSetType t =>
      have hstep : is_valid (stepOp s (SockOp.opSetType t)) = is_valid s := by
        simp [stepOp, setType, is_valid]
      calc is_valid (runOps s (SockOp.opSetType t :: rest))
          = specValid (is_valid (stepOp s (SockOp.opSetType t))) rest := ih _ hrest
        _ = specValid (is_valid s) rest := by rw [hstep]
    | opSetProtocol pr =>
      have hstep : is_valid (stepOp s (SockOp.opSetProtocol pr)) = is_valid s := by
        simp [stepOp, setProtocol, is_valid]
      calc is_valid (runOps s (SockOp.opSetProtocol pr :: rest))
          = specValid (is_valid (stepOp s (SockOp.opSetProtocol pr))) rest := ih _ hrest
        _ = specValid (is_valid s) rest := by rw [hstep]
    | opReadLine evs =>
      have hstep : is_valid (stepOp s (SockOp.opReadLine evs)) = is_valid s := by
        simp only [stepOp, ReadLine]
        cases readLineLoop s.lineBuffer evs <;> rfl
      calc is_valid (runOps s (SockOp.opReadLine evs :: rest))
          = specValid (is_valid (stepOp s (SockOp.opReadLine evs))) rest := ih _ hrest
        _ = specValid (is_valid s) rest := by rw [hstep]

/-- Claim C5: for every reachable state of a Socket — every trace of
operations run from the default-constructed socket, with the OS never
granting the invalid sentinel as a descriptor — is_valid returns true if
and only if the most recent create succeeded and close has not been called
since (the reference predicate specValid, written from the claim), and
equivalently the stored descriptor differs from the invalid sentinel
exactly then; the invariant is preserved by every modelled operation. -/
theorem is_valid_iff_created (ops : List SockOp)
    (hfd : ∀ fd, SockOp.opCreate fd ∈ ops → fd ≠ INVALID_SOCKET) :
    is_valid (runOps initialSocket ops) = specValid false ops
    ∧ ((runOps initialSocket ops).m_sd ≠ INVALID_SOCKET ↔
        specValid false ops = true) := by
  have h := is_valid_run ops initialSocket hfd
  have hinit : is_valid initialSocket = false := rfl
  rw [hinit] at h
  refine ⟨h, ?_⟩
  rw [← h]
  simp [is_valid]

/-- Witness for is_valid_iff_created on the trace create(3), setPort 80,
close: after the close the socket is no longer valid. -/
theorem is_valid_iff_created_witness :
    is_valid (runOps initialSocket
        [SockOp.opCreate 3, SockOp.opSetPort 80, SockOp.opClose]) =
      specValid false [SockOp.opCreate 3, SockOp.opSetPort 80, SockOp.opClose] :=
  (is_valid_iff_created [SockOp.opCreate 3, SockOp.opSetPort 80, SockOp.opClose]
    (by intro fd hm; simp at hm; subst hm; decide)).1

/-- One atomic action on the process-wide socket-subsystem state: osInit
(performed by create) or osCleanup (performed by close or destruction).
The spec requires the shared counter to be modified under mutual
exclusion, so an arbitrary interleaving of N threads is a sequence of
these atomic actions. -/
inductive SubsysEvent
  | evInit
  | evCleanup
deriving DecidableEq

/-- The process-wide socket-subsystem state: the usage counter
(win_usage_count, Socket.h lines 273-277) and whether the subsystem is
currently initialized. -/
structure SubsysState where
  count : Nat
  inited : Bool
deriving DecidableEq

/-- Modelled from the spec: the reference-counted subsystem handshake.
osInit initializes the subsystem when the counter rises from zero and
increments it; osCleanup decrements the counter and tears the subsystem
down exactly when the counter reaches zero. -/
def subsysStep (st : SubsysState) : SubsysEvent → SubsysState
  | SubsysEvent.evInit =>
    { count := st.count + 1, inited := if st.count = 0 then true else st.inited }
  | SubsysEvent.evCleanup =>
    { count := st.count - 1,
      inited := if st.count - 1 = 0 then false else st.inited }

/-- Runs a sequence of atomic subsystem actions from the initial state
(counter zero, subsystem not initialized). -/
def runSubsys (evs : List SubsysEvent) : SubsysState :=
  evs.foldl subsysStep { count := 0, inited := false }

/-- A well-formed interleaving seen from a counter value c: every cleanup
is matched by a previously counted init (a Socket only releases the
subsystem it acquired), so the counter never underflows. -/
def balancedFrom : Nat → List SubsysEvent → Prop
  | _, [] => True
  | c, SubsysEvent.evInit :: rest => balancedFrom (c + 1) rest
  | c, SubsysEvent.evCleanup :: rest => 0 < c ∧ balancedFrom (c - 1) rest

theorem subsys_run :
    ∀ (evs : List SubsysEvent) (st : SubsysState),
      (st.inited = true ↔ st.count ≠ 0) → balancedFrom st.count evs →
      ((evs.foldl subsysStep st).inited = true ↔ (evs.foldl subsysStep st).count ≠ 0)
      ∧ (evs.foldl subsysStep st).count + (evs.count SubsysEvent.evCleanup) =
          st.count + (evs.count SubsysEvent.evInit) := by
  intro evs
  induction evs with
  | nil =>
    intro st hinv _
    simpa using hinv
  | cons ev rest ih =>
    intro st hinv hbal
    cases ev with
    | evInit =>
      have hinv' : ((subsysStep st SubsysEvent.evInit).inited = true ↔
          (subsysStep st SubsysEvent.evInit).count ≠ 0) := by
        by_cases h0 : st.count = 0 <;> simp [subsysStep, h0] at hinv ⊢ <;> tauto
      have hbal' : balancedFrom (subsysStep st SubsysEvent.evInit).count rest := by
        simpa [subsysStep] using hbal
      have hrec := ih (subsysStep st SubsysEvent.evInit) hinv' hbal'
      refine ⟨hrec.1, ?_⟩
      have hcnt := hrec.2
      have hstep1 : (subsysStep st SubsysEvent.evInit).count = st.count + 1 := rfl
      rw [hstep1] at hcnt
      rw [List.foldl_cons]
      have hcc : List.count SubsysEvent.evCleanup (SubsysEvent.evInit :: rest) =
          List.count SubsysEvent.evCleanup rest := by
        simp [List.count_cons]
      have hci : List.count SubsysEvent.evInit (SubsysEvent.evInit :: rest) =
          List.count SubsysEvent.evInit rest + 1 := by
        simp [List.count_cons]
      rw [hcc, hci]
      omega
    | evCleanup =>
      obtain ⟨hpos, hbal0⟩ := hbal
      have hinv' : ((subsysStep st SubsysEvent.evCleanup).inited = true ↔
          (subsysStep st SubsysEvent.evCleanup).count ≠ 0) := by
        by_cases h0 : st.count - 1 = 0
        · simp [subsysStep, h0]
        · have hne : st.count ≠ 0 := by omega
          have hi : st.inited = true := hinv.mpr hne
          simp [subsysStep, h0, hi]
      have hbal' : balancedFrom (subsysStep st SubsysEvent.evCleanup).count rest := by
        simpa [subsysStep] using hbal0
      have hrec := ih (subsysStep st SubsysEvent.evCleanup) hinv' hbal'
      refine ⟨hrec.1, ?_⟩
      have hcnt := hrec.2
      have hstep1 : (subsysStep st SubsysEvent.evCleanup).count = st.count - 1 := rfl
      rw [hstep1] at hcnt
      rw [List.foldl_cons]
      have hcc : List.count SubsysEvent.evCleanup (SubsysEvent.evCleanup :: rest) =
          List.count SubsysEvent.evCleanup rest + 1 := by
        simp [List.count_cons]
      have hci : List.count SubsysEvent.evInit (SubsysEvent.evCleanup :: rest) =
          List.count SubsysEvent.evInit rest := by
        simp [List.count_cons]
      rw [hcc, hci]
      omega

/-- Claim C9: under the mutual exclusion the spec requires for the shared
counter, every interleaving of concurrent create and close/destroy actions
across any number of threads is a well-formed sequence of atomic counter
actions; after any such sequence the usage counter equals the number of
osInit actions minus the number of osCleanup actions, and the subsystem is
initialized exactly while that counter is nonzero — so it is initialized
exactly while at least one socket is open and is torn down only when the
count reaches zero, never while a socket still holds it. -/
theorem subsys_refcount (evs : List SubsysEvent) (hbal : balancedFrom 0 evs) :
    ((runSubsys evs).inited = true ↔ (runSubsys evs).count ≠ 0)
    ∧ (runSubsys evs).count + evs.count SubsysEvent.evCleanup =
        evs.count SubsysEvent.evInit := by
  have := subsys_run evs { count := 0, inited := false } (by simp) hbal
  exact ⟨this.1, by have := this.2; simpa [runSubsys] using this⟩

/-- Witness for subsys_refcount at the interleaving init, init, cleanup,
cleanup of two overlapping sockets. -/
theorem subsys_refcount_witness :
    ((runSubsys [SubsysEvent.evInit, SubsysEvent.evInit, SubsysEvent.evCleanup,
          SubsysEvent.evCleanup]).inited = true ↔ (runSubsys [SubsysEvent.evInit,
          SubsysEvent.evInit, SubsysEvent.evCleanup, SubsysEvent.evCleanup]).count ≠ 0)
    ∧ (runSubsys [SubsysEvent.evInit, SubsysEvent.evInit, SubsysEvent.evCleanup,
          SubsysEvent.evCleanup]).count +
        ([SubsysEvent.evInit, SubsysEvent.evInit, SubsysEvent.evCleanup,
          SubsysEvent.evCleanup].count SubsysEvent.evCleanup) =
        ([SubsysEvent.evInit, SubsysEvent.evInit, SubsysEvent.evCleanup,
          SubsysEvent.evCleanup].count SubsysEvent.evInit) :=
  subsys_refcount
    [SubsysEvent.evInit, SubsysEvent.evInit, SubsysEvent.evCleanup,
      SubsysEvent.evCleanup]
    (by simp [balancedFrom])

end OCTO
